import Mathlib

/-!
Shallow embedding of the task-persistence core of `ctk_todo_app.py`:
JSON values, the `load_tasks`/`save_tasks` pair, the three mutation
operations (`add_task_event`, `toggle_complete`, `remove_task`) and the
display ordering computed by `refresh_task_list`.  Machinery that is pure
I/O (file handles, widget rendering) is modelled at its observable
boundary: `LoadInput` records what the file system / JSON parser handed
to `load_tasks`, and the `Bool` flags on the mutation results record
whether `save_tasks` was invoked.
-/

/-- JSON values as produced by `json.load`.  JSON numbers are modelled as
integers; no property below depends on fractional values. -/
inductive JVal where
  | null : JVal
  | bool (b : Bool) : JVal
  | num (n : Int) : JVal
  | str (s : String) : JVal
  | arr (elems : List JVal) : JVal
  | obj (fields : List (String × JVal)) : JVal

/-- A Python dict as it arrives from `json.load`: an insertion-ordered
association list (keys produced by `json.load` are unique). -/
abbrev JObj := List (String × JVal)

/-- First-match association lookup, i.e. `d[k]` / `k in d` on a dict. -/
def jlookup (o : JObj) (k : String) : Option JVal :=
  match o with
  | [] => none
  | (k', v) :: rest => if k' = k then some v else jlookup rest k

/-- `d.setdefault(k, v)`: leave the dict alone when the key is present,
otherwise append the pair (Python dicts keep insertion order). -/
def setdefault (o : JObj) (k : String) (v : JVal) : JObj :=
  if (jlookup o k).isSome then o else o ++ [(k, v)]

/-- `d[k] = v`: replace the value in place when the key is present,
otherwise append the pair. -/
def dictSet (o : JObj) (k : String) (v : JVal) : JObj :=
  if (jlookup o k).isSome then
    o.map (fun p => if p.1 = k then (k, v) else p)
  else o ++ [(k, v)]

/-- `d.get(k)`: a missing key yields Python `None`, which coincides with
JSON `null`. -/
def getPy (o : JObj) (k : String) : JVal := (jlookup o k).getD .null

/-- Python truthiness of a JSON value (used by `not task.get('done', False)`). -/
def truthy : JVal → Bool
  | .null => false
  | .bool b => b
  | .num n => n != 0
  | .str s => s != ""
  | .arr l => !l.isEmpty
  | .obj o => !o.isEmpty

mutual
/-- Python `==` on JSON values.  Booleans are integers in Python
(`False == 0`, `True == 1`).  Objects are compared field-list-wise: a
Python dict comparison ignores key order, but every comparison performed
by this program is between strings (or `None`), where the two agree. -/
def pyEq : JVal → JVal → Bool
  | .null, .null => true
  | .bool a, .bool b => a == b
  | .bool a, .num n => n == (if a then 1 else 0)
  | .num n, .bool a => n == (if a then 1 else 0)
  | .num a, .num b => a == b
  | .str a, .str b => a == b
  | .arr a, .arr b => pyEqList a b
  | .obj a, .obj b => pyEqObj a b
  | _, _ => false

def pyEqList : List JVal → List JVal → Bool
  | [], [] => true
  | a :: as, b :: bs => pyEq a b && pyEqList as bs
  | _, _ => false

def pyEqObj : List (String × JVal) → List (String × JVal) → Bool
  | [], [] => true
  | (k, v) :: as, (k', v') :: bs => k == k' && pyEq v v' && pyEqObj as bs
  | _, _ => false
end

/-- The ASCII whitespace characters stripped by `str.strip()` (the
unicode whitespace Python also strips never occurs in this development). -/
def isPySpace (c : Char) : Bool :=
  c = ' ' || c = '\t' || c = '\n' || c = '\r' || c = '\x0b' || c = '\x0c'

/-- `s.strip()`. -/
def pyStrip (s : String) : String :=
  ⟨((s.toList.dropWhile isPySpace).reverse.dropWhile isPySpace).reverse⟩

/-- The six fields `datetime.strptime` extracts for the fixed format. -/
structure DT where
  year : Nat
  month : Nat
  day : Nat
  hour : Nat
  minute : Nat
  second : Nat
deriving DecidableEq, Repr

/-- Digit value of a character, `none` on a non-digit. -/
def digi (c : Char) : Option Nat :=
  if c.isDigit then some (c.toNat - '0'.toNat) else none

/-- Regex alternation is modelled by a candidate list in backtracking
priority order; `%Y` is `\d\d\d\d`. -/
def pYear : List Char → List (Nat × List Char)
  | a :: b :: c :: d :: rest =>
    match digi a, digi b, digi c, digi d with
    | some w, some x, some y, some z => [(w * 1000 + x * 100 + y * 10 + z, rest)]
    | _, _, _, _ => []
  | _ => []

/-- `%m` is `1[0-2]|0[1-9]|[1-9]`. -/
def pMonth (cs : List Char) : List (Nat × List Char) :=
  (match cs with
   | a :: b :: rest =>
     match digi a, digi b with
     | some x, some y =>
       if (x = 1 && y ≤ 2) || (x = 0 && 1 ≤ y) then [(10 * x + y, rest)] else []
     | _, _ => []
   | _ => []) ++
  (match cs with
   | a :: rest =>
     match digi a with
     | some x => if 1 ≤ x then [(x, rest)] else []
     | none => []
   | _ => [])

/-- `%d` is `3[0-1]|[1-2]\d|0[1-9]|[1-9]| [1-9]` (note the final
space-then-digit alternative). -/
def pDay (cs : List Char) : List (Nat × List Char) :=
  (match cs with
   | a :: b :: rest =>
     match digi a, digi b with
     | some x, some y =>
       if (x = 3 && y ≤ 1) || x = 1 || x = 2 || (x = 0 && 1 ≤ y) then
         [(10 * x + y, rest)]
       else []
     | _, _ => []
   | _ => []) ++
  (match cs with
   | a :: rest =>
     match digi a with
     | some x => if 1 ≤ x then [(x, rest)] else []
     | none => []
   | _ => []) ++
  (match cs with
   | ' ' :: a :: rest =>
     match digi a with
     | some x => if 1 ≤ x then [(x, rest)] else []
     | none => []
   | _ => [])

/-- `%H` is `2[0-3]|[0-1]\d|\d`. -/
def pHour (cs : List Char) : List (Nat × List Char) :=
  (match cs with
   | a :: b :: rest =>
     match digi a, digi b with
     | some x, some y =>
       if (x = 2 && y ≤ 3) || x ≤ 1 then [(10 * x + y, rest)] else []
     | _, _ => []
   | _ => []) ++
  (match cs with
   | a :: rest =>
     match digi a with
     | some x => [(x, rest)]
     | none => []
   | _ => [])

/-- `%M` is `[0-5]\d|\d`. -/
def pMin (cs : List Char) : List (Nat × List Char) :=
  (match cs with
   | a :: b :: rest =>
     match digi a, digi b with
     | some x, some y => if x ≤ 5 then [(10 * x + y, rest)] else []
     | _, _ => []
   | _ => []) ++
  (match cs with
   | a :: rest =>
     match digi a with
     | some x => [(x, rest)]
     | none => []
   | _ => [])

/-- `%S` is `6[0-1]|[0-5]\d|\d` (the regex admits leap seconds; the
`datetime` constructor rejects them later). -/
def pSec (cs : List Char) : List (Nat × List Char) :=
  (match cs with
   | a :: b :: rest =>
     match digi a, digi b with
     | some x, some y =>
       if (x = 6 && y ≤ 1) || x ≤ 5 then [(10 * x + y, rest)] else []
     | _, _ => []
   | _ => []) ++
  (match cs with
   | a :: rest =>
     match digi a with
     | some x => [(x, rest)]
     | none => []
   | _ => [])

/-- A literal `-` or `:` of the format string. -/
def pLit (c : Char) : List Char → List (List Char)
  | d :: rest => if d = c then [rest] else []
  | [] => []

/-- Whitespace in an strptime format string is compiled to `\s+`:
greedily consume one or more whitespace characters, longer consumptions
first in backtracking order. -/
def pSpaces : List Char → List (List Char)
  | c :: rest =>
    if isPySpace c then (pSpaces rest) ++ [rest] else []
  | [] => []

/-- All matches of the compiled pattern for `"%Y-%m-%d %H:%M:%S"`
against a prefix of the input, in backtracking priority order; the head
is the match the regex engine reports. -/
def tsCandidates (cs : List Char) : List (DT × List Char) :=
  (pYear cs).flatMap fun yc =>
  (pLit '-' yc.2).flatMap fun cs1 =>
  (pMonth cs1).flatMap fun mc =>
  (pLit '-' mc.2).flatMap fun cs2 =>
  (pDay cs2).flatMap fun dc =>
  (pSpaces dc.2).flatMap fun cs3 =>
  (pHour cs3).flatMap fun hc =>
  (pLit ':' hc.2).flatMap fun cs4 =>
  (pMin cs4).flatMap fun mic =>
  (pLit ':' mic.2).flatMap fun cs5 =>
  (pSec cs5).map fun sc =>
  (⟨yc.1, mc.1, dc.1, hc.1, mic.1, sc.1⟩, sc.2)

/-- Gregorian leap year, as in `datetime`. -/
def isLeap (y : Nat) : Bool := y % 4 = 0 && (y % 100 ≠ 0 || y % 400 = 0)

/-- Days in a month, as in `datetime`. -/
def daysInMonth (y mo : Nat) : Nat :=
  if mo = 2 then (if isLeap y then 29 else 28)
  else if mo = 4 || mo = 6 || mo = 9 || mo = 11 then 30
  else 31

/-- The validation the `datetime` constructor performs on top of the
regex match: year in `1..9999` (four digits force `≤ 9999`), day within
the month, second `≤ 59`. -/
def validDT (dt : DT) : Bool :=
  1 ≤ dt.year && dt.day ≤ daysInMonth dt.year dt.month && dt.second ≤ 59

/-- `datetime.strptime(s, "%Y-%m-%d %H:%M:%S")`: take the regex engine's
match (head of the candidate list); fail if input remains unconverted or
the `datetime` constructor rejects the fields. -/
def strptimeYMDHMS (s : String) : Option DT :=
  match tsCandidates s.toList with
  | [] => none
  | (dt, rest) :: _ => if rest.isEmpty && validDT dt then some dt else none


/-- What the file system and `json.load` handed to `load_tasks`:
the file may be missing, zero-length, unreadable/unparsable
(`IOError` / `json.JSONDecodeError`), or parsed into a JSON value. -/
inductive LoadInput where
  | missing : LoadInput
  | emptyFile : LoadInput
  | jsonError : LoadInput
  | parsed (v : JVal) : LoadInput

/-- The warnings `load_tasks` prints, by kind. -/
inductive LoadWarning where
  | emptyFile : LoadWarning
  | formatIncorrect : LoadWarning
  | badTimestamp : LoadWarning
  | decodeError : LoadWarning
  | unexpectedError : LoadWarning
deriving DecidableEq, Repr

/-- The epoch string `datetime(1970, 1, 1).strftime("%Y-%m-%d %H:%M:%S")`. -/
def epochStr : String := "1970-01-01 00:00:00"

/-- The per-record normalization loop body of `load_tasks`:
`setdefault` for `description` and `done`, default or validate the
`timestamp`.  `none` models the `TypeError` that `datetime.strptime`
raises on a present non-string timestamp (it is not a `ValueError`, so
it escapes the inner handler and aborts the whole load). -/
def normalizeObj (now : String) (t : JObj) : Option (JObj × List LoadWarning) :=
  let t1 := setdefault t "description" (.str "No Description")
  let t2 := setdefault t1 "done" (.bool false)
  match jlookup t2 "timestamp" with
  | none => some (t2 ++ [("timestamp", .str epochStr)], [])
  | some (.str s) =>
    if (strptimeYMDHMS s).isSome then some (t2, [])
    else some (dictSet t2 "timestamp" (.str now), [.badTimestamp])
  | some _ => none

/-- The `for task in tasks` loop of `load_tasks`, processed in order.
`none` in the first component models an exception reaching the outer
`except Exception` handler: a non-dict element (`AttributeError` on
`setdefault`) or a non-string timestamp (`TypeError` from `strptime`).
Warnings printed before the exception are kept. -/
def normalizeTasks (now : String) : List JVal → Option (List JObj) × List LoadWarning
  | [] => (some [], [])
  | .obj t :: rest =>
    match normalizeObj now t with
    | some (t', w) =>
      match normalizeTasks now rest with
      | (some ts, ws) => (some (t' :: ts), w ++ ws)
      | (none, ws) => (none, w ++ ws)
    | none => (none, [.unexpectedError])
  | _ :: _ => (none, [.unexpectedError])

/-- `load_tasks`: the translation of the whole function over the
`LoadInput` boundary.  It is a total Lean function — every input state
yields some list — mirroring that the Python function catches every
exception and returns a list.  `now` is the string
`datetime.now().strftime("%Y-%m-%d %H:%M:%S")` would produce. -/
def load_tasks (input : LoadInput) (now : String) : List JObj × List LoadWarning :=
  match input with
  | .missing => ([], [])
  | .emptyFile => ([], [.emptyFile])
  | .jsonError => ([], [.decodeError])
  | .parsed (.arr elems) =>
    match normalizeTasks now elems with
    | (some ts, ws) => (ts, ws)
    | (none, ws) => ([], ws)
  | .parsed _ => ([], [.formatIncorrect])

/-- `save_tasks`: `json.dump(tasks, f, indent=4)` serializes the list as
a JSON array of objects.  The value below is the document a successful
write leaves in the file, and the value `json.load` parses back from it;
an `IOError` on write is reported and leaves the previous file content in
place (that case simply never produces this document). -/
def save_tasks (tasks : List JObj) : JVal := .arr (tasks.map .obj)

/-- The fresh task dict built by `add_task_event`. -/
def newTask (description now : String) : JObj :=
  [("description", .str description), ("done", .bool false), ("timestamp", .str now)]

/-- `TodoApp.add_task_event`: strip the entry text; a non-empty result
appends a fresh task and saves, an empty result only prints a message.
The `Bool` records whether `save_tasks` was called. -/
def add_task_event (tasks : List JObj) (entry : String) (now : String) :
    List JObj × Bool :=
  let description := pyStrip entry
  if description ≠ "" then (tasks ++ [newTask description now], true)
  else (tasks, false)

/-- `not task.get('done', False)` followed by `task['done'] = ...`. -/
def flipDone (t : JObj) : JObj :=
  dictSet t "done" (.bool (! truthy ((jlookup t "done").getD (.bool false))))

/-- The scan loop of `TodoApp.toggle_complete`: find the first task whose
`timestamp` and `description` equal the target's and flip it.  `none`
models the uncaught `KeyError` raised when a compared key is missing
(`task['timestamp']`, and `task['description']` only once the timestamps
matched, per Python's short-circuit `and`). -/
def toggleScan (target : JObj) : List JObj → Option (List JObj × Bool)
  | [] => some ([], false)
  | t :: rest =>
    match jlookup t "timestamp", jlookup target "timestamp" with
    | some tv, some gv =>
      if pyEq tv gv then
        match jlookup t "description", jlookup target "description" with
        | some dv, some gd =>
          if pyEq dv gd then some (flipDone t :: rest, true)
          else
            match toggleScan target rest with
            | some (r, f) => some (t :: r, f)
            | none => none
        | _, _ => none
      else
        match toggleScan target rest with
        | some (r, f) => some (t :: r, f)
        | none => none
    | _, _ => none

/-- `TodoApp.toggle_complete`.  The `Bool` is the `found` flag: exactly
when it is true the function calls `save_tasks`; when it is false it
only prints the could-not-find warning. -/
def toggle_complete (tasks : List JObj) (target : JObj) :
    Option (List JObj × Bool) :=
  toggleScan target tasks

/-- The match test of `TodoApp.remove_task`, built on `dict.get` (a
missing key and a JSON `null` both read back as Python `None`). -/
def matchesTarget (target t : JObj) : Bool :=
  pyEq (getPy t "timestamp") (getPy target "timestamp") &&
  pyEq (getPy t "description") (getPy target "description")

/-- `TodoApp.remove_task`: keep the non-matching tasks; save exactly when
the list got shorter (otherwise only the warning is printed). -/
def remove_task (tasks : List JObj) (target : JObj) : List JObj × Bool :=
  let remaining := tasks.filter (fun t => ! matchesTarget target t)
  (remaining, remaining.length < tasks.length)

/-- The sort-key expression `t.get('timestamp', '1970-01-01 00:00:00')`
of `refresh_task_list`. -/
def timeVal (t : JObj) : JVal := (jlookup t "timestamp").getD (.str epochStr)

/-- `datetime.strptime` applied to the timestamp sort key.  `.error
false` is the `ValueError` the surrounding `except ValueError` handler
catches; `.error true` is the `TypeError` on a non-string value, which
no handler catches. -/
def timeKeyE (t : JObj) : Except Bool DT :=
  match timeVal t with
  | .str s =>
    match strptimeYMDHMS s with
    | some dt => .ok dt
    | none => .error false
  | _ => .error true

/-- Chronological encoding of the six parsed fields; lexicographically
monotone, so it orders `datetime` values exactly. -/
def dtKey (dt : DT) : Nat :=
  ((((dt.year * 13 + dt.month) * 32 + dt.day) * 24 + dt.hour) * 60 + dt.minute) * 60
    + dt.second

/-- The timestamp sort key as a natural number (only evaluated on tasks
whose key computation succeeded). -/
def timeKeyN (t : JObj) : Nat :=
  match timeKeyE t with
  | .ok dt => dtKey dt
  | .error _ => 0

/-- The completion sort key `t.get('done', False)`, as the raw value
Python compares. -/
def doneVal (t : JObj) : JVal := (jlookup t "done").getD (.bool false)

mutual
/-- Python `<` on the values this program can store.  Booleans are
integers (`False` is `0`, `True` is `1`) and compare numerically with
numbers; strings compare lexicographically by code point; lists compare
lexicographically.  Every other combination — `None` or a dict on
either side (even against themselves), or a number against a string —
raises `TypeError`, modelled as `none`. -/
def pyLt : JVal → JVal → Option Bool
  | .bool a, .bool b =>
    some (decide ((if a then (1 : Int) else 0) < if b then 1 else 0))
  | .bool a, .num n => some (decide ((if a then (1 : Int) else 0) < n))
  | .num n, .bool b => some (decide (n < if b then (1 : Int) else 0))
  | .num a, .num b => some (decide (a < b))
  | .str a, .str b => some (decide (a < b))
  | .arr a, .arr b => pyLtList a b
  | _, _ => none

/-- Lexicographic `<` on Python lists: skip the equal prefix (`==`
never raises), compare the first differing elements (which may raise),
and order a full prefix before the longer list. -/
def pyLtList : List JVal → List JVal → Option Bool
  | [], [] => some false
  | [], _ :: _ => some true
  | _ :: _, [] => some false
  | a :: as, b :: bs => if pyEq a b then pyLtList as bs else pyLt a b
end

/-- Stable insertion of one task into the completion-status order by
Python `<` on the raw `done` keys: the task goes before the first task
with a strictly greater key, hence after every equal key; an
incomparable pair of keys is a `TypeError`, modelled as `none`. -/
def insortDone (a : JObj) : List JObj → Option (List JObj)
  | [] => some [a]
  | b :: bs =>
    match pyLt (doneVal a) (doneVal b) with
    | none => none
    | some true => some (a :: b :: bs)
    | some false =>
      match insortDone a bs with
      | some r => some (b :: r)
      | none => none

/-- `sorted(tasks, key=lambda t: t.get('done', False))`: a stable sort
comparing the raw `done` values with Python `<`.  CPython runs a
binary-insertion timsort over the precomputed keys; the model inserts
stably left to right, which produces the same list whenever every pair
of keys it compares is comparable and likewise raises when a task's key
is incomparable with the keys sorted before it (on the two-element
lists evaluated below the two algorithms perform exactly the same
single comparison). -/
def pySortDone (l : List JObj) : Option (List JObj) :=
  l.foldl (fun acc t => acc.bind (insortDone t)) (some [])

/-- Statement-side classifier, not part of the program model: true
exactly on a `done` value of `False`.  The theorems using it carry the
data-model hypothesis that every `done` value is boolean, under which
its negation is exactly `done = True`. -/
def isNotDone (t : JObj) : Bool :=
  match doneVal t with
  | .bool false => true
  | _ => false

/-- `sorted` computes the key of every element in list order and the
first exception aborts the call: the first failing timestamp key, if
any. -/
def firstKeyErr : List JObj → Option Bool
  | [] => none
  | t :: rest =>
    match timeKeyE t with
    | .ok _ => firstKeyErr rest
    | .error e => some e

/-- Stable insertion of `a` into an already sorted list: `a` goes before
the first element with a strictly larger key, hence after every earlier
element with an equal key. -/
def insortKey (k : α → Nat) (a : α) : List α → List α
  | [] => [a]
  | b :: bs => if k a < k b then a :: b :: bs else b :: insortKey k a bs

/-- Python's `sorted(l, key=k)` (a stable sort), modelled as repeated
stable insertion, left to right. -/
def pySortKey (k : α → Nat) (l : List α) : List α :=
  l.foldl (fun acc a => insortKey k a acc) []

/-- The ordering computed by `TodoApp.refresh_task_list`: sort by
timestamp, then stably by the raw completion values; on a `ValueError`
from a timestamp key fall back to the completion sort alone.  `none`
models the uncaught `TypeError` of a non-string timestamp value or of
an incomparable pair of `done` values (neither is a `ValueError`, so
the handler does not catch them and the render fails). -/
def refreshOrder (tasks : List JObj) : Option (List JObj) :=
  match firstKeyErr tasks with
  | none => pySortDone (pySortKey timeKeyN tasks)
  | some false => pySortDone tasks
  | some true => none

/-- A task record in the worst-case shape the program's own operations
rely on: `description` and `done` keys present, `timestamp` present as a
string in the fixed format. -/
def wfTask (t : JObj) : Bool :=
  (jlookup t "description").isSome && (jlookup t "done").isSome &&
  (match jlookup t "timestamp" with
   | some (.str s) => (strptimeYMDHMS s).isSome
   | _ => false)

/-- A record whose `timestamp`, when present, is a string (the shape on
which the normalization loop cannot raise a `TypeError`). -/
def tsStringOrAbsent (t : JObj) : Bool :=
  match jlookup t "timestamp" with
  | none => true
  | some (.str _) => true
  | some _ => false

/-- The first component a successful `normalizeObj` yields (the record
as the loop leaves it); only evaluated where `normalizeObj` succeeds. -/
def normFst (now : String) (t : JObj) : JObj :=
  match normalizeObj now t with
  | some (t', _) => t'
  | none => []

/-- The warnings a successful `normalizeObj` prints. -/
def normWarn (now : String) (t : JObj) : List LoadWarning :=
  match normalizeObj now t with
  | some (_, w) => w
  | none => []

/-- Task A of the specification's sort-order example. -/
def taskA : JObj :=
  [("description", .str "A"), ("done", .bool false),
   ("timestamp", .str "2024-01-02 00:00:00")]

/-- Task B of the specification's sort-order example. -/
def taskB : JObj :=
  [("description", .str "B"), ("done", .bool true),
   ("timestamp", .str "2024-01-01 00:00:00")]

/-- Task C of the specification's sort-order example. -/
def taskC : JObj :=
  [("description", .str "C"), ("done", .bool false),
   ("timestamp", .str "2024-01-01 00:00:00")]

/-- An incomplete task with a parsable timestamp. -/
def taskP : JObj :=
  [("description", .str "P"), ("done", .bool false),
   ("timestamp", .str "2024-01-01 00:00:00")]

/-- An incomplete task whose `timestamp` is present but unparsable. -/
def taskQ : JObj :=
  [("description", .str "Q"), ("done", .bool false),
   ("timestamp", .str "bad-timestamp")]

/-- The timestamp sort key as the specification's §4.2 describes it: a
task whose timestamp cannot be parsed "falls back to being treated as
epoch time for this sort".  Stated only to compare against what
`refresh_task_list` actually computes. -/
def epochFallbackKey (t : JObj) : Nat :=
  match timeKeyE t with
  | .ok dt => dtKey dt
  | .error _ => dtKey ⟨1970, 1, 1, 0, 0, 0⟩

/-- Two tasks sharing one description but carrying different
timestamps. -/
def taskX1 : JObj :=
  [("description", .str "buy milk"), ("done", .bool false),
   ("timestamp", .str "2024-03-03 10:00:00")]

/-- See `taskX1`: same description, a different timestamp. -/
def taskX2 : JObj :=
  [("description", .str "buy milk"), ("done", .bool false),
   ("timestamp", .str "2024-03-03 10:00:01")]

/-- A task carrying a string `done` value and an unparsable timestamp:
loading never produces it, but it shows the crash path of the display
sort. -/
def taskR : JObj :=
  [("description", .str "R"), ("done", .str "x"),
   ("timestamp", .str "bad-timestamp")]

/-- A well-formed incomplete task, paired with `taskR`. -/
def taskS : JObj :=
  [("description", .str "S"), ("done", .bool false),
   ("timestamp", .str "2024-01-01 00:00:00")]

example : strptimeYMDHMS "1970-01-01 00:00:00" = some ⟨1970, 1, 1, 0, 0, 0⟩ := by decide

example : strptimeYMDHMS "2024-1-5 1:2:3" = some ⟨2024, 1, 5, 1, 2, 3⟩ := by decide

example : strptimeYMDHMS "2024-02-30 00:00:00" = none := by decide

example : strptimeYMDHMS "0000-01-01 00:00:00" = none := by decide

example : strptimeYMDHMS "2024-01-01 00:00:60" = none := by decide

example : strptimeYMDHMS "2024-01-01 00:00:591" = none := by decide

example : strptimeYMDHMS "2024-01- 5 00:00:00" = some ⟨2024, 1, 5, 0, 0, 0⟩ := by decide

example : strptimeYMDHMS "2024-13-01 00:00:00" = none := by decide

example : strptimeYMDHMS "" = none := by decide

example : strptimeYMDHMS "bad-timestamp" = none := by decide

theorem jlookup_append (o o' : JObj) (k : String) :
    jlookup (o ++ o') k =
      match jlookup o k with
      | some v => some v
      | none => jlookup o' k := by
  induction o with
  | nil => rfl
  | cons p rest ih =>
    obtain ⟨k', v⟩ := p
    by_cases h : k' = k <;> simp [jlookup, h, ih]

theorem jlookup_append_single_ne (o : JObj) (k k₀ : String) (v : JVal)
    (h : k ≠ k₀) : jlookup (o ++ [(k₀, v)]) k = jlookup o k := by
  rw [jlookup_append]
  cases ho : jlookup o k <;> simp [jlookup, Ne.symm h]

theorem jlookup_setdefault_same (o : JObj) (k : String) (v : JVal) :
    jlookup (setdefault o k v) k = some ((jlookup o k).getD v) := by
  unfold setdefault
  cases h : jlookup o k with
  | some w => simp [h]
  | none => simp [h, jlookup_append, jlookup]

theorem jlookup_setdefault_ne (o : JObj) (k k' : String) (v : JVal)
    (h : k' ≠ k) : jlookup (setdefault o k v) k' = jlookup o k' := by
  unfold setdefault
  cases h0 : jlookup o k with
  | some w => simp [h0]
  | none => simp [h0, jlookup_append_single_ne o k' k v h]

theorem jlookup_mapset_self (o : JObj) (k : String) (v : JVal)
    (h : (jlookup o k).isSome) :
    jlookup (o.map (fun p => if p.1 = k then (k, v) else p)) k = some v := by
  induction o with
  | nil => simp [jlookup] at h
  | cons p rest ih =>
    obtain ⟨k₀, v₀⟩ := p
    simp only [List.map_cons]
    by_cases hk : k₀ = k
    · subst hk
      rw [if_pos rfl]
      simp [jlookup]
    · rw [if_neg (by simpa using hk)]
      simp only [jlookup, hk, if_false] at h ⊢
      exact ih h

theorem jlookup_mapset_ne (o : JObj) (k k' : String) (v : JVal) (h : k' ≠ k) :
    jlookup (o.map (fun p => if p.1 = k then (k, v) else p)) k' = jlookup o k' := by
  induction o with
  | nil => rfl
  | cons p rest ih =>
    obtain ⟨k₀, v₀⟩ := p
    simp only [List.map_cons]
    by_cases hk : k₀ = k
    · subst hk
      rw [if_pos rfl]
      simp [jlookup, Ne.symm h, ih]
    · rw [if_neg (by simpa using hk)]
      simp [jlookup, ih]

theorem jlookup_dictSet_self (o : JObj) (k : String) (v : JVal) :
    jlookup (dictSet o k v) k = some v := by
  unfold dictSet
  cases h : jlookup o k with
  | some w => simp [jlookup_mapset_self o k v (by simp [h])]
  | none =>
    simp only [h, Option.isSome_none, Bool.false_eq_true, if_false]
    rw [jlookup_append]
    simp [h, jlookup]

theorem jlookup_dictSet_ne (o : JObj) (k k' : String) (v : JVal) (h : k' ≠ k) :
    jlookup (dictSet o k v) k' = jlookup o k' := by
  unfold dictSet
  cases h0 : jlookup o k with
  | some w => simp [jlookup_mapset_ne o k k' v h]
  | none =>
    simp only [h0, Option.isSome_none, Bool.false_eq_true, if_false]
    exact jlookup_append_single_ne o k' k v h

theorem setdefault_of_present (o : JObj) (k : String) (v : JVal)
    (h : (jlookup o k).isSome) : setdefault o k v = o := by
  unfold setdefault
  simp [h]

theorem setdefaults_description (u : JObj) :
    jlookup (setdefault (setdefault u "description" (.str "No Description"))
        "done" (.bool false)) "description" =
      some ((jlookup u "description").getD (.str "No Description")) := by
  rw [jlookup_setdefault_ne _ _ _ _ (by decide), jlookup_setdefault_same]

theorem setdefaults_done (u : JObj) :
    jlookup (setdefault (setdefault u "description" (.str "No Description"))
        "done" (.bool false)) "done" =
      some ((jlookup u "done").getD (.bool false)) := by
  rw [jlookup_setdefault_same, jlookup_setdefault_ne _ _ _ _ (by decide)]

theorem setdefaults_timestamp (u : JObj) :
    jlookup (setdefault (setdefault u "description" (.str "No Description"))
        "done" (.bool false)) "timestamp" = jlookup u "timestamp" := by
  rw [jlookup_setdefault_ne _ _ _ _ (by decide),
    jlookup_setdefault_ne _ _ _ _ (by decide)]

theorem setdefaults_other (u : JObj) (k : String) (h1 : k ≠ "description")
    (h2 : k ≠ "done") :
    jlookup (setdefault (setdefault u "description" (.str "No Description"))
        "done" (.bool false)) k = jlookup u k := by
  rw [jlookup_setdefault_ne _ _ _ _ h2, jlookup_setdefault_ne _ _ _ _ h1]

theorem normalizeObj_ts_none (now : String) (u : JObj)
    (h : jlookup u "timestamp" = none) :
    normalizeObj now u =
      some (setdefault (setdefault u "description" (.str "No Description"))
          "done" (.bool false) ++ [("timestamp", .str epochStr)], []) := by
  simp only [normalizeObj]
  rw [setdefaults_timestamp, h]

theorem normalizeObj_ts_ok (now : String) (u : JObj) (s : String)
    (h : jlookup u "timestamp" = some (.str s))
    (hp : (strptimeYMDHMS s).isSome) :
    normalizeObj now u =
      some (setdefault (setdefault u "description" (.str "No Description"))
          "done" (.bool false), []) := by
  simp only [normalizeObj]
  rw [setdefaults_timestamp, h]
  simp [hp]

theorem normalizeObj_ts_bad (now : String) (u : JObj) (s : String)
    (h : jlookup u "timestamp" = some (.str s))
    (hp : strptimeYMDHMS s = none) :
    normalizeObj now u =
      some (dictSet (setdefault (setdefault u "description" (.str "No Description"))
          "done" (.bool false)) "timestamp" (.str now), [.badTimestamp]) := by
  simp only [normalizeObj]
  rw [setdefaults_timestamp, h]
  simp [hp]

theorem normalizeObj_ts_nonstr (now : String) (u : JObj) (v : JVal)
    (h : jlookup u "timestamp" = some v) (hv : ∀ s, v ≠ .str s) :
    normalizeObj now u = none := by
  simp only [normalizeObj]
  rw [setdefaults_timestamp, h]
  cases v with
  | str s => exact absurd rfl (hv s)
  | null => rfl
  | bool b => rfl
  | num n => rfl
  | arr l => rfl
  | obj o => rfl

theorem normalizeObj_isSome (now : String) (u : JObj)
    (h : tsStringOrAbsent u = true) : (normalizeObj now u).isSome := by
  unfold tsStringOrAbsent at h
  cases hts : jlookup u "timestamp" with
  | none => rw [normalizeObj_ts_none now u hts]; rfl
  | some v =>
    cases v with
    | str s =>
      cases hp : strptimeYMDHMS s with
      | some dt => rw [normalizeObj_ts_ok now u s hts (by simp [hp])]; rfl
      | none => rw [normalizeObj_ts_bad now u s hts hp]; rfl
    | null => rw [hts] at h; simp at h
    | bool b => rw [hts] at h; simp at h
    | num n => rw [hts] at h; simp at h
    | arr l => rw [hts] at h; simp at h
    | obj o => rw [hts] at h; simp at h

theorem normalizeObj_eq_pair (now : String) (u : JObj)
    (h : (normalizeObj now u).isSome) :
    normalizeObj now u = some (normFst now u, normWarn now u) := by
  cases hh : normalizeObj now u with
  | none => rw [hh] at h; simp at h
  | some p =>
    obtain ⟨t', w'⟩ := p
    unfold normFst normWarn
    rw [hh]

theorem epoch_parses : (strptimeYMDHMS epochStr).isSome = true := by decide

theorem normalizeObj_wf (now : String) (u t : JObj) (w : List LoadWarning)
    (hnow : (strptimeYMDHMS now).isSome)
    (h : normalizeObj now u = some (t, w)) : wfTask t = true := by
  cases hts : jlookup u "timestamp" with
  | none =>
    rw [normalizeObj_ts_none now u hts] at h
    injection h with h'
    injection h' with h1 h2
    subst h1
    unfold wfTask
    rw [jlookup_append, jlookup_append, jlookup_append,
      setdefaults_description u, setdefaults_done u, setdefaults_timestamp u, hts]
    simp [jlookup, epoch_parses]
  | some v =>
    cases v with
    | str s =>
      cases hp : strptimeYMDHMS s with
      | some dt =>
        rw [normalizeObj_ts_ok now u s hts (by simp [hp])] at h
        injection h with h'
        injection h' with h1 h2
        subst h1
        unfold wfTask
        rw [setdefaults_description u, setdefaults_done u,
          setdefaults_timestamp u, hts]
        simp [hp]
      | none =>
        rw [normalizeObj_ts_bad now u s hts hp] at h
        injection h with h'
        injection h' with h1 h2
        subst h1
        unfold wfTask
        rw [jlookup_dictSet_ne _ _ _ _ (by decide),
          jlookup_dictSet_ne _ _ _ _ (by decide), jlookup_dictSet_self,
          setdefaults_description u, setdefaults_done u]
        simp [hnow]
    | null => rw [normalizeObj_ts_nonstr now u _ hts (by intro s h; cases h)] at h; cases h
    | bool b => rw [normalizeObj_ts_nonstr now u _ hts (by intro s h; cases h)] at h; cases h
    | num n => rw [normalizeObj_ts_nonstr now u _ hts (by intro s h; cases h)] at h; cases h
    | arr l => rw [normalizeObj_ts_nonstr now u _ hts (by intro s h; cases h)] at h; cases h
    | obj o => rw [normalizeObj_ts_nonstr now u _ hts (by intro s h; cases h)] at h; cases h

theorem wfTask_fields (u : JObj) (h : wfTask u = true) :
    (jlookup u "description").isSome ∧ (jlookup u "done").isSome ∧
      ∃ s, jlookup u "timestamp" = some (.str s) ∧ (strptimeYMDHMS s).isSome := by
  unfold wfTask at h
  cases hts : jlookup u "timestamp" with
  | none => rw [hts] at h; simp at h
  | some v =>
    rw [hts] at h
    cases v with
    | str s =>
      simp only [Bool.and_eq_true] at h
      exact ⟨h.1.1, h.1.2, s, rfl, h.2⟩
    | null => simp at h
    | bool b => simp at h
    | num n => simp at h
    | arr l => simp at h
    | obj o => simp at h

theorem normalizeObj_of_wf (now : String) (u : JObj) (h : wfTask u = true) :
    normalizeObj now u = some (u, []) := by
  obtain ⟨hd, hn, s, hts, hp⟩ := wfTask_fields u h
  have h1 : setdefault u "description" (JVal.str "No Description") = u :=
    setdefault_of_present _ _ _ hd
  have h2 : setdefault u "done" (JVal.bool false) = u :=
    setdefault_of_present _ _ _ hn
  simp only [normalizeObj]
  rw [setdefaults_timestamp, hts]
  simp only [hp, if_true]
  rw [h1, h2]

theorem normFst_of_ts_none (now : String) (u : JObj)
    (h : jlookup u "timestamp" = none) :
    normFst now u =
      setdefault (setdefault u "description" (.str "No Description"))
        "done" (.bool false) ++ [("timestamp", .str epochStr)] := by
  unfold normFst
  rw [normalizeObj_ts_none now u h]

theorem normFst_of_ts_ok (now : String) (u : JObj) (s : String)
    (h : jlookup u "timestamp" = some (.str s))
    (hp : (strptimeYMDHMS s).isSome) :
    normFst now u =
      setdefault (setdefault u "description" (.str "No Description"))
        "done" (.bool false) := by
  unfold normFst
  rw [normalizeObj_ts_ok now u s h hp]

theorem normFst_of_ts_bad (now : String) (u : JObj) (s : String)
    (h : jlookup u "timestamp" = some (.str s))
    (hp : strptimeYMDHMS s = none) :
    normFst now u =
      dictSet (setdefault (setdefault u "description" (.str "No Description"))
        "done" (.bool false)) "timestamp" (.str now) := by
  unfold normFst
  rw [normalizeObj_ts_bad now u s h hp]

theorem normWarn_of_ts_none (now : String) (u : JObj)
    (h : jlookup u "timestamp" = none) : normWarn now u = [] := by
  unfold normWarn
  rw [normalizeObj_ts_none now u h]

theorem normWarn_of_ts_ok (now : String) (u : JObj) (s : String)
    (h : jlookup u "timestamp" = some (.str s))
    (hp : (strptimeYMDHMS s).isSome) : normWarn now u = [] := by
  unfold normWarn
  rw [normalizeObj_ts_ok now u s h hp]

theorem normWarn_of_ts_bad (now : String) (u : JObj) (s : String)
    (h : jlookup u "timestamp" = some (.str s))
    (hp : strptimeYMDHMS s = none) : normWarn now u = [.badTimestamp] := by
  unfold normWarn
  rw [normalizeObj_ts_bad now u s h hp]

theorem tsStringOrAbsent_cases (u : JObj) (h : tsStringOrAbsent u = true) :
    jlookup u "timestamp" = none ∨ ∃ s, jlookup u "timestamp" = some (.str s) := by
  unfold tsStringOrAbsent at h
  cases hts : jlookup u "timestamp" with
  | none => exact Or.inl rfl
  | some v =>
    cases v with
    | str s => exact Or.inr ⟨s, rfl⟩
    | null => rw [hts] at h; simp at h
    | bool b => rw [hts] at h; simp at h
    | num n => rw [hts] at h; simp at h
    | arr l => rw [hts] at h; simp at h
    | obj o => rw [hts] at h; simp at h

theorem normFst_description (now : String) (u : JObj)
    (h : tsStringOrAbsent u = true) :
    jlookup (normFst now u) "description" =
      some ((jlookup u "description").getD (.str "No Description")) := by
  rcases tsStringOrAbsent_cases u h with hts | ⟨s, hts⟩
  · rw [normFst_of_ts_none now u hts,
      jlookup_append_single_ne _ _ _ _ (by decide), setdefaults_description]
  · cases hp : strptimeYMDHMS s with
    | some dt =>
      rw [normFst_of_ts_ok now u s hts (by simp [hp]), setdefaults_description]
    | none =>
      rw [normFst_of_ts_bad now u s hts hp,
        jlookup_dictSet_ne _ _ _ _ (by decide), setdefaults_description]

theorem normFst_done (now : String) (u : JObj)
    (h : tsStringOrAbsent u = true) :
    jlookup (normFst now u) "done" =
      some ((jlookup u "done").getD (.bool false)) := by
  rcases tsStringOrAbsent_cases u h with hts | ⟨s, hts⟩
  · rw [normFst_of_ts_none now u hts,
      jlookup_append_single_ne _ _ _ _ (by decide), setdefaults_done]
  · cases hp : strptimeYMDHMS s with
    | some dt =>
      rw [normFst_of_ts_ok now u s hts (by simp [hp]), setdefaults_done]
    | none =>
      rw [normFst_of_ts_bad now u s hts hp,
        jlookup_dictSet_ne _ _ _ _ (by decide), setdefaults_done]

theorem normFst_ts_of_none (now : String) (u : JObj)
    (h : jlookup u "timestamp" = none) :
    jlookup (normFst now u) "timestamp" = some (.str epochStr) := by
  rw [normFst_of_ts_none now u h, jlookup_append]
  rw [setdefaults_timestamp, h]
  simp [jlookup]

theorem normFst_ts_of_ok (now : String) (u : JObj) (s : String)
    (h : jlookup u "timestamp" = some (.str s))
    (hp : (strptimeYMDHMS s).isSome) :
    jlookup (normFst now u) "timestamp" = some (.str s) := by
  rw [normFst_of_ts_ok now u s h hp, setdefaults_timestamp, h]

theorem normFst_ts_of_bad (now : String) (u : JObj) (s : String)
    (h : jlookup u "timestamp" = some (.str s))
    (hp : strptimeYMDHMS s = none) :
    jlookup (normFst now u) "timestamp" = some (.str now) := by
  rw [normFst_of_ts_bad now u s h hp, jlookup_dictSet_self]

theorem normFst_other (now : String) (u : JObj) (k : String)
    (h : tsStringOrAbsent u = true) (h1 : k ≠ "description") (h2 : k ≠ "done")
    (h3 : k ≠ "timestamp") :
    jlookup (normFst now u) k = jlookup u k := by
  rcases tsStringOrAbsent_cases u h with hts | ⟨s, hts⟩
  · rw [normFst_of_ts_none now u hts, jlookup_append_single_ne _ _ _ _ h3,
      setdefaults_other u k h1 h2]
  · cases hp : strptimeYMDHMS s with
    | some dt =>
      rw [normFst_of_ts_ok now u s hts (by simp [hp]), setdefaults_other u k h1 h2]
    | none =>
      rw [normFst_of_ts_bad now u s hts hp, jlookup_dictSet_ne _ _ _ _ h3,
        setdefaults_other u k h1 h2]

theorem normalizeTasks_map_obj (now : String) (ts : List JObj)
    (h : ∀ t ∈ ts, tsStringOrAbsent t = true) :
    normalizeTasks now (ts.map .obj) =
      (some (ts.map (normFst now)), (ts.map (normWarn now)).flatten) := by
  induction ts with
  | nil => rfl
  | cons u rest ih =>
    have hu : tsStringOrAbsent u = true := h u (List.mem_cons_self u rest)
    have hrest : ∀ t ∈ rest, tsStringOrAbsent t = true :=
      fun t ht => h t (List.mem_cons_of_mem u ht)
    simp only [List.map_cons, normalizeTasks]
    rw [normalizeObj_eq_pair now u (normalizeObj_isSome now u hu), ih hrest]
    simp

theorem load_tasks_map_obj (now : String) (ts : List JObj)
    (h : ∀ t ∈ ts, tsStringOrAbsent t = true) :
    load_tasks (.parsed (.arr (ts.map .obj))) now =
      (ts.map (normFst now), (ts.map (normWarn now)).flatten) := by
  simp only [load_tasks]
  rw [normalizeTasks_map_obj now ts h]

theorem normalizeTasks_of_wf (now : String) (ts : List JObj)
    (h : ∀ t ∈ ts, wfTask t = true) :
    normalizeTasks now (ts.map .obj) = (some ts, []) := by
  induction ts with
  | nil => rfl
  | cons u rest ih =>
    have hu : wfTask u = true := h u (List.mem_cons_self u rest)
    have hrest : ∀ t ∈ rest, wfTask t = true :=
      fun t ht => h t (List.mem_cons_of_mem u ht)
    simp only [List.map_cons, normalizeTasks]
    rw [normalizeObj_of_wf now u hu, ih hrest]
    rfl

theorem normalizeTasks_mem (now : String) :
    ∀ (l : List JVal) (ts : List JObj) (ws : List LoadWarning),
      normalizeTasks now l = (some ts, ws) → ∀ t ∈ ts,
        ∃ u w, normalizeObj now u = some (t, w) := by
  intro l
  induction l with
  | nil =>
    intro ts ws h t ht
    simp only [normalizeTasks, Prod.mk.injEq, Option.some.injEq] at h
    obtain ⟨h1, h2⟩ := h
    subst h1
    simp at ht
  | cons e rest ih =>
    intro ts ws h t ht
    cases e with
    | obj u =>
      simp only [normalizeTasks] at h
      cases hn : normalizeObj now u with
      | none => rw [hn] at h; cases h
      | some p =>
        obtain ⟨t', w'⟩ := p
        rw [hn] at h
        cases hr : normalizeTasks now rest with
        | mk ro rw0 =>
          cases ro with
          | none => rw [hr] at h; simp at h
          | some ts' =>
            rw [hr] at h
            simp only [Prod.mk.injEq, Option.some.injEq] at h
            obtain ⟨h1, h2⟩ := h
            subst h1
            cases ht with
            | head => exact ⟨u, w', hn⟩
            | tail _ hm => exact ih ts' rw0 (by rw [hr]) t hm
    | null => simp only [normalizeTasks] at h; cases h
    | bool b => simp only [normalizeTasks] at h; cases h
    | num n => simp only [normalizeTasks] at h; cases h
    | str s => simp only [normalizeTasks] at h; cases h
    | arr l2 => simp only [normalizeTasks] at h; cases h

theorem load_tasks_mem_norm (input : LoadInput) (now : String) :
    ∀ t ∈ (load_tasks input now).1, ∃ u w, normalizeObj now u = some (t, w) := by
  intro t ht
  cases input with
  | missing => simp [load_tasks] at ht
  | emptyFile => simp [load_tasks] at ht
  | jsonError => simp [load_tasks] at ht
  | parsed v =>
    cases v with
    | arr elems =>
      simp only [load_tasks] at ht
      cases hr : normalizeTasks now elems with
      | mk ro ws =>
        cases ro with
        | none => rw [hr] at ht; simp at ht
        | some ts =>
          rw [hr] at ht
          exact normalizeTasks_mem now elems ts ws hr t ht
    | null => simp [load_tasks] at ht
    | bool b => simp [load_tasks] at ht
    | num n => simp [load_tasks] at ht
    | str s => simp [load_tasks] at ht
    | obj o => simp [load_tasks] at ht

theorem normalizeTasks_none_warn (now : String) :
    ∀ l : List JVal, (normalizeTasks now l).1 = none →
      LoadWarning.unexpectedError ∈ (normalizeTasks now l).2 := by
  intro l
  induction l with
  | nil => intro h; cases h
  | cons e rest ih =>
    intro h
    cases e with
    | obj u =>
      simp only [normalizeTasks] at h ⊢
      cases hn : normalizeObj now u with
      | none => simp [hn]
      | some p =>
        obtain ⟨t', w'⟩ := p
        cases hr : normalizeTasks now rest with
        | mk ro ws =>
          rw [hn] at h
          rw [hr] at h
          cases ro with
          | none =>
            have hmem := ih (by rw [hr])
            have hmem2 : LoadWarning.unexpectedError ∈ ws := by
              rw [hr] at hmem
              exact hmem
            simp only
            exact List.mem_append_right w' hmem2
          | some ts => simp at h
    | null => simp [normalizeTasks]
    | bool b => simp [normalizeTasks]
    | num n => simp [normalizeTasks]
    | str s => simp [normalizeTasks]
    | arr l2 => simp [normalizeTasks]

theorem normalizeTasks_nonobj_none (now : String) :
    ∀ (pre : List JVal) (e : JVal) (post : List JVal), (∀ o, e ≠ .obj o) →
      (normalizeTasks now (pre ++ e :: post)).1 = none := by
  intro pre
  induction pre with
  | nil =>
    intro e post he
    cases e with
    | obj o => exact absurd rfl (he o)
    | null => rfl
    | bool b => rfl
    | num n => rfl
    | str s => rfl
    | arr l2 => rfl
  | cons a pre' ih =>
    intro e post he
    cases a with
    | obj u =>
      simp only [List.cons_append, normalizeTasks]
      cases hn : normalizeObj now u with
      | none => rfl
      | some p =>
        obtain ⟨t', w'⟩ := p
        cases hr : normalizeTasks now (pre' ++ e :: post) with
        | mk ro ws =>
          have := ih e post he
          rw [hr] at this
          cases ro with
          | none => rfl
          | some ts => cases this
    | null => rfl
    | bool b => rfl
    | num n => rfl
    | str s => rfl
    | arr l2 => rfl

/-- C1: for every stored record parsed from the JSON array (every present
timestamp being a string, so that the normalization loop completes),
`load_tasks` returns exactly the field-defaulted records: a missing
`description` becomes `"No Description"`, a missing `done` becomes
`false`, a missing `timestamp` becomes the epoch string, a present but
unparsable timestamp string becomes the current time with a
`badTimestamp` warning reported, and every other present field is left
as-is. -/
theorem load_applies_field_defaulting (now : String) (elems : List JObj)
    (h : ∀ t ∈ elems, tsStringOrAbsent t = true) :
    (load_tasks (.parsed (.arr (elems.map .obj))) now).1 = elems.map (normFst now)
    ∧ (load_tasks (.parsed (.arr (elems.map .obj))) now).2
        = (elems.map (normWarn now)).flatten
    ∧ (∀ t ∈ elems,
        jlookup (normFst now t) "description" =
            some ((jlookup t "description").getD (.str "No Description"))
        ∧ jlookup (normFst now t) "done" =
            some ((jlookup t "done").getD (.bool false))
        ∧ (jlookup t "timestamp" = none →
            jlookup (normFst now t) "timestamp" = some (.str epochStr)
            ∧ normWarn now t = [])
        ∧ (∀ s, jlookup t "timestamp" = some (.str s) →
            ((strptimeYMDHMS s).isSome →
              jlookup (normFst now t) "timestamp" = some (.str s)
              ∧ normWarn now t = [])
            ∧ (strptimeYMDHMS s = none →
              jlookup (normFst now t) "timestamp" = some (.str now)
              ∧ normWarn now t = [LoadWarning.badTimestamp]))
        ∧ (∀ k, k ≠ "description" → k ≠ "done" → k ≠ "timestamp" →
            jlookup (normFst now t) k = jlookup t k)) := by
  refine ⟨?_, ?_, ?_⟩
  · rw [load_tasks_map_obj now elems h]
  · rw [load_tasks_map_obj now elems h]
  · intro t ht
    have htt := h t ht
    refine ⟨normFst_description now t htt, normFst_done now t htt, ?_, ?_, ?_⟩
    · intro hn
      exact ⟨normFst_ts_of_none now t hn, normWarn_of_ts_none now t hn⟩
    · intro s hs
      exact ⟨fun hp => ⟨normFst_ts_of_ok now t s hs hp, normWarn_of_ts_ok now t s hs hp⟩,
        fun hp => ⟨normFst_ts_of_bad now t s hs hp, normWarn_of_ts_bad now t s hs hp⟩⟩
    · intro k k1 k2 k3
      exact normFst_other now t k htt k1 k2 k3

/-- C1 witness: field defaulting evaluated on a concrete stored array
containing a record with no timestamp, a fully valid record, and a
record with an unparsable timestamp. -/
theorem load_applies_field_defaulting_witness :
    (load_tasks (.parsed (.arr ([[("done", JVal.bool true)], taskP,
        [("description", JVal.str "bad"), ("timestamp", JVal.str "nope")]].map
        .obj))) "2030-05-06 07:08:09").1
      = [[("done", JVal.bool true)], taskP,
         [("description", JVal.str "bad"), ("timestamp", JVal.str "nope")]].map
          (normFst "2030-05-06 07:08:09") :=
  (load_applies_field_defaulting "2030-05-06 07:08:09" _ (by decide)).1

/-- C2: `load_tasks` is total and returns the empty list on every failing
input state — missing file (no warning), zero-length file, unreadable or
unparsable content, non-array document, and any array whose
normalization aborts (non-dict element or non-string timestamp), each
with a warning. -/
theorem load_yields_list_on_all_failures (now : String) :
    load_tasks .missing now = ([], [])
    ∧ load_tasks .emptyFile now = ([], [.emptyFile])
    ∧ load_tasks .jsonError now = ([], [.decodeError])
    ∧ (∀ v : JVal, (∀ l, v ≠ .arr l) →
        load_tasks (.parsed v) now = ([], [.formatIncorrect]))
    ∧ (∀ elems : List JVal, (normalizeTasks now elems).1 = none →
        (load_tasks (.parsed (.arr elems)) now).1 = []
        ∧ (load_tasks (.parsed (.arr elems)) now).2 ≠ []) := by
  refine ⟨rfl, rfl, rfl, ?_, ?_⟩
  · intro v hv
    cases v with
    | arr l => exact absurd rfl (hv l)
    | null => rfl
    | bool b => rfl
    | num n => rfl
    | str s => rfl
    | obj o => rfl
  · intro elems hnone
    have hw := normalizeTasks_none_warn now elems hnone
    simp only [load_tasks]
    cases hr : normalizeTasks now elems with
    | mk ro ws =>
      rw [hr] at hnone hw
      cases ro with
      | none => exact ⟨rfl, List.ne_nil_of_mem hw⟩
      | some ts => cases hnone

/-- C2 witness: the failure cases evaluated on concrete inputs, including
a parsed document that is a bare string and an array containing a
non-object element. -/
theorem load_yields_list_on_all_failures_witness :
    load_tasks .missing "n" = ([], [])
    ∧ load_tasks .emptyFile "n" = ([], [.emptyFile])
    ∧ load_tasks .jsonError "n" = ([], [.decodeError])
    ∧ load_tasks (.parsed (.str "not a json array")) "n" = ([], [.formatIncorrect])
    ∧ (load_tasks (.parsed (.arr [.str "x"])) "n").1 = []
    ∧ (load_tasks (.parsed (.arr [.str "x"])) "n").2 ≠ [] := by
  obtain ⟨a, b, c, d, e⟩ := load_yields_list_on_all_failures "n"
  have he := e [.str "x"] rfl
  exact ⟨a, b, c, d (.str "x") (fun l h => by cases h), he.1, he.2⟩

/-- C10: when the parsed document is a JSON array containing any
non-object element, `load_tasks` returns the empty list — the
well-formed objects before the bad element are discarded too. -/
theorem load_discards_all_on_nonobj_element (now : String) (pre : List JVal)
    (e : JVal) (post : List JVal) (he : ∀ o, e ≠ .obj o) :
    (load_tasks (.parsed (.arr (pre ++ e :: post))) now).1 = [] := by
  simp only [load_tasks]
  have hn := normalizeTasks_nonobj_none now pre e post he
  cases hr : normalizeTasks now (pre ++ e :: post) with
  | mk ro ws =>
    rw [hr] at hn
    cases ro with
    | none => rfl
    | some ts => cases hn

/-- C10 witness: a fully valid object followed by a bare string still
loads as the empty list. -/
theorem load_discards_all_on_nonobj_element_witness :
    (load_tasks (.parsed (.arr [.obj taskP, .str "oops"])) "n").1 = [] :=
  load_discards_all_on_nonobj_element "n" [.obj taskP] (.str "oops") []
    (fun o h => by cases h)

/-- C3 counterexample: a stored record whose `description` is present but
empty survives loading unchanged, so the loaded list contains a record
whose description is empty after trimming — the claimed invariant
(description non-empty after trimming) fails on the code, which only
defaults missing fields and never validates present ones. -/
theorem loaded_task_may_violate_data_model :
    ∃ t ∈ (load_tasks (.parsed (.arr [.obj [("description", JVal.str "")]]))
        epochStr).1,
      ¬ (∃ s, jlookup t "description" = some (.str s) ∧ pyStrip s ≠ "") := by
  refine ⟨[("description", JVal.str ""), ("done", JVal.bool false),
    ("timestamp", JVal.str epochStr)], List.mem_singleton_self _, ?_⟩
  rintro ⟨s, hs, hne⟩
  have h0 : jlookup [("description", JVal.str ""), ("done", JVal.bool false),
      ("timestamp", JVal.str epochStr)] "description" = some (.str "") := rfl
  rw [h0] at hs
  injection hs with hs1
  injection hs1 with hs2
  exact hne (by rw [← hs2]; rfl)

/-- C3 (amended): after `load_tasks` completes, every record in the
returned list has `description` and `done` keys present and a
`timestamp` key holding a string that parses against the fixed format
(given that the current-time string does, as `strftime` guarantees); a
present `description` is however kept as-is even when empty or
non-textual, and a present `done` is kept as-is even when not boolean. -/
theorem loaded_tasks_keys_present_ts_valid (input : LoadInput) (now : String)
    (hnow : (strptimeYMDHMS now).isSome) :
    ∀ t ∈ (load_tasks input now).1, wfTask t = true := by
  intro t ht
  obtain ⟨u, w, hu⟩ := load_tasks_mem_norm input now t ht
  exact normalizeObj_wf now u t w hnow hu

/-- C3 witness: the amended invariant evaluated on the record loaded from
an object that stored only a `done` flag. -/
theorem loaded_tasks_keys_present_ts_valid_witness :
    wfTask [("done", JVal.bool true), ("description", JVal.str "No Description"),
      ("timestamp", JVal.str epochStr)] = true := by
  refine loaded_tasks_keys_present_ts_valid
    (.parsed (.arr [.obj [("done", JVal.bool true)]])) "2030-01-02 03:04:05"
    (by decide) _ ?_
  exact List.mem_singleton_self _

/-- C4: saving any list of well-formed task records and loading the
resulting document yields the original list, field for field, with no
warnings. -/
theorem save_then_load_round_trip (now : String) (tasks : List JObj)
    (h : ∀ t ∈ tasks, wfTask t = true) :
    load_tasks (.parsed (save_tasks tasks)) now = (tasks, []) := by
  simp only [save_tasks, load_tasks]
  rw [normalizeTasks_of_wf now tasks h]

/-- C4 witness: the round trip evaluated on a concrete two-task list. -/
theorem save_then_load_round_trip_witness :
    load_tasks (.parsed (save_tasks [taskP, taskB])) "2030-01-01 00:00:00"
      = ([taskP, taskB], []) :=
  save_then_load_round_trip "2030-01-01 00:00:00" [taskP, taskB] (by decide)

/-- C5: `add_task_event` with a description that is non-empty after
stripping appends exactly one fresh task (stripped description,
`done = false`, `timestamp` = the current-time string) at the end and
saves; with a description that strips to empty it leaves the list
unchanged and performs no save. -/
theorem add_appends_or_rejects (tasks : List JObj) (entry now : String) :
    (pyStrip entry ≠ "" →
      add_task_event tasks entry now = (tasks ++ [newTask (pyStrip entry) now], true)
      ∧ jlookup (newTask (pyStrip entry) now) "description" =
          some (.str (pyStrip entry))
      ∧ jlookup (newTask (pyStrip entry) now) "done" = some (.bool false)
      ∧ jlookup (newTask (pyStrip entry) now) "timestamp" = some (.str now))
    ∧ (pyStrip entry = "" → add_task_event tasks entry now = (tasks, false)) := by
  constructor
  · intro h
    refine ⟨?_, rfl, rfl, rfl⟩
    simp only [add_task_event]
    rw [if_pos h]
  · intro h
    simp only [add_task_event]
    rw [if_neg (by simp [h])]

/-- C5 witness: adding `"  buy milk  "` appends the stripped task and
saves; adding `"   "` is a no-op without a save. -/
theorem add_appends_or_rejects_witness :
    add_task_event [] "  buy milk  " "2024-05-05 12:00:00"
      = ([newTask "buy milk" "2024-05-05 12:00:00"], true)
    ∧ add_task_event [taskP] "   " "2024-05-05 12:00:00" = ([taskP], false) :=
  ⟨((add_appends_or_rejects [] "  buy milk  " "2024-05-05 12:00:00").1
      (by decide)).1,
    (add_appends_or_rejects [taskP] "   " "2024-05-05 12:00:00").2 (by decide)⟩

theorem matchesTarget_of_present (target t : JObj) (tv gv dv gd : JVal)
    (h1 : jlookup t "timestamp" = some tv)
    (h2 : jlookup target "timestamp" = some gv)
    (h3 : jlookup t "description" = some dv)
    (h4 : jlookup target "description" = some gd) :
    matchesTarget target t = (pyEq tv gv && pyEq dv gd) := by
  unfold matchesTarget getPy
  rw [h1, h2, h3, h4]
  rfl

theorem flipDone_done (t : JObj) (b : Bool)
    (h : jlookup t "done" = some (.bool b)) :
    jlookup (flipDone t) "done" = some (.bool (!b)) := by
  unfold flipDone
  rw [jlookup_dictSet_self, h]
  rfl

theorem toggleScan_spec (target : JObj)
    (hg1 : (jlookup target "timestamp").isSome)
    (hg2 : (jlookup target "description").isSome) :
    ∀ tasks : List JObj,
      (∀ t ∈ tasks, (jlookup t "timestamp").isSome ∧
        (jlookup t "description").isSome) →
      ∃ res found, toggleScan target tasks = some (res, found)
        ∧ ((∀ t ∈ tasks, matchesTarget target t = false) →
            res = tasks ∧ found = false)
        ∧ (∀ pre u post, tasks = pre ++ u :: post →
            (∀ p ∈ pre, matchesTarget target p = false) →
            matchesTarget target u = true →
            found = true ∧ res = pre ++ flipDone u :: post) := by
  obtain ⟨gv, hgv⟩ := Option.isSome_iff_exists.mp hg1
  obtain ⟨gd, hgd⟩ := Option.isSome_iff_exists.mp hg2
  intro tasks
  induction tasks with
  | nil =>
    intro _
    refine ⟨[], false, rfl, fun _ => ⟨rfl, rfl⟩, ?_⟩
    intro pre u post heq
    exact absurd heq (by simp)
  | cons t rest ih =>
    intro hk
    obtain ⟨tv, htv⟩ :=
      Option.isSome_iff_exists.mp (hk t (List.mem_cons_self t rest)).1
    obtain ⟨dv, hdv⟩ :=
      Option.isSome_iff_exists.mp (hk t (List.mem_cons_self t rest)).2
    have hmt : matchesTarget target t = (pyEq tv gv && pyEq dv gd) :=
      matchesTarget_of_present target t tv gv dv gd htv hgv hdv hgd
    cases hts : pyEq tv gv with
    | true =>
      cases hds : pyEq dv gd with
      | true =>
        refine ⟨flipDone t :: rest, true, ?_, ?_, ?_⟩
        · simp only [toggleScan]
          rw [htv, hgv, hdv, hgd]
          simp [hts, hds]
        · intro hall
          have := hall t (List.mem_cons_self t rest)
          rw [hmt, hts, hds] at this
          cases this
        · intro pre u post heq hpre hu
          cases pre with
          | nil =>
            simp only [List.nil_append] at heq
            injection heq with h1 h2
            subst h1
            subst h2
            exact ⟨rfl, rfl⟩
          | cons p pre' =>
            simp only [List.cons_append] at heq
            injection heq with h1 h2
            have hp := hpre p (List.mem_cons_self p pre')
            rw [← h1, hmt, hts, hds] at hp
            cases hp
      | false =>
        obtain ⟨res', found', hscan, h1, h2⟩ :=
          ih (fun x hx => hk x (List.mem_cons_of_mem t hx))
        have hmtf : matchesTarget target t = false := by
          rw [hmt, hts, hds]
          rfl
        refine ⟨t :: res', found', ?_, ?_, ?_⟩
        · simp only [toggleScan]
          rw [htv, hgv, hdv, hgd]
          simp only [hts, if_true, hds, Bool.false_eq_true, if_false]
          rw [hscan]
        · intro hall
          have hrest := h1 (fun x hx => hall x (List.mem_cons_of_mem t hx))
          exact ⟨by rw [hrest.1], hrest.2⟩
        · intro pre u post heq hpre hu
          cases pre with
          | nil =>
            simp only [List.nil_append] at heq
            injection heq with h1 h2
            rw [← h1, hmtf] at hu
            cases hu
          | cons p pre' =>
            simp only [List.cons_append] at heq
            injection heq with hh1 hh2
            obtain ⟨hf, hr⟩ := h2 pre' u post hh2
              (fun q hq => hpre q (List.mem_cons_of_mem p hq)) hu
            exact ⟨hf, by rw [hh1, hr]; rfl⟩
    | false =>
      obtain ⟨res', found', hscan, h1, h2⟩ :=
        ih (fun x hx => hk x (List.mem_cons_of_mem t hx))
      have hmtf : matchesTarget target t = false := by
        rw [hmt, hts]
        rfl
      refine ⟨t :: res', found', ?_, ?_, ?_⟩
      · simp only [toggleScan]
        rw [htv, hgv]
        simp only [hts, Bool.false_eq_true, if_false]
        rw [hscan]
      · intro hall
        have hrest := h1 (fun x hx => hall x (List.mem_cons_of_mem t hx))
        exact ⟨by rw [hrest.1], hrest.2⟩
      · intro pre u post heq hpre hu
        cases pre with
        | nil =>
          simp only [List.nil_append] at heq
          injection heq with h1 h2
          rw [← h1, hmtf] at hu
          cases hu
        | cons p pre' =>
          simp only [List.cons_append] at heq
          injection heq with hh1 hh2
          obtain ⟨hf, hr⟩ := h2 pre' u post hh2
            (fun q hq => hpre q (List.mem_cons_of_mem p hq)) hu
          exact ⟨hf, by rw [hh1, hr]; rfl⟩

/-- C6: on any task list whose records (and target) carry their
`timestamp` and `description` keys, `toggle_complete` flips the `done`
field of exactly the first task whose (description, timestamp) pair
equals the target's — writing the first decomposition
`tasks = pre ++ u :: post` with no match in `pre` and `u` matching, the
result is `pre ++ flipDone u :: post` with the save flag set — while a
list with no match is returned unchanged with no save; flipping negates
a boolean `done` and touches no other field of the flipped task. -/
theorem toggle_flips_first_exact_match (tasks : List JObj) (target : JObj)
    (hk : ∀ t ∈ tasks, (jlookup t "timestamp").isSome ∧
      (jlookup t "description").isSome)
    (hg1 : (jlookup target "timestamp").isSome)
    (hg2 : (jlookup target "description").isSome) :
    ∃ res found, toggle_complete tasks target = some (res, found)
      ∧ ((∀ t ∈ tasks, matchesTarget target t = false) →
          res = tasks ∧ found = false)
      ∧ (∀ pre u post, tasks = pre ++ u :: post →
          (∀ p ∈ pre, matchesTarget target p = false) →
          matchesTarget target u = true →
          found = true ∧ res = pre ++ flipDone u :: post)
      ∧ (∀ (u : JObj) (b : Bool), jlookup u "done" = some (.bool b) →
          jlookup (flipDone u) "done" = some (.bool (!b)))
      ∧ (∀ (u : JObj) (k : String), k ≠ "done" →
          jlookup (flipDone u) k = jlookup u k) := by
  obtain ⟨res, found, h0, h1, h2⟩ := toggleScan_spec target hg1 hg2 tasks hk
  exact ⟨res, found, h0, h1, h2, fun u b hb => flipDone_done u b hb,
    fun u k hkk => jlookup_dictSet_ne _ _ _ _ hkk⟩

/-- C6 witness: two tasks with the same description and different
timestamps; toggling by the second task's identity pair flips only that
task and saves. -/
theorem toggle_flips_first_exact_match_witness :
    toggle_complete [taskX1, taskX2] taskX2
      = some ([taskX1, flipDone taskX2], true) := by
  obtain ⟨res, found, h0, _, h2, _⟩ :=
    toggle_flips_first_exact_match [taskX1, taskX2] taskX2 (by decide)
      (by decide) (by decide)
  obtain ⟨hf, hr⟩ := h2 [taskX1] taskX2 [] rfl (by decide) (by decide)
  rw [hf, hr] at h0
  exact h0

/-- C7: `remove_task` produces the sublist of tasks whose
(description, timestamp) pair does not equal the target's, preserving
the relative order of the survivors; the save flag is set exactly when
some task matched, and with no match the list is returned unchanged with
no save. -/
theorem remove_excludes_all_matches (tasks : List JObj) (target : JObj) :
    (remove_task tasks target).1 =
        tasks.filter (fun t => ! matchesTarget target t)
    ∧ List.Sublist (remove_task tasks target).1 tasks
    ∧ ((remove_task tasks target).2 = true ↔
        ∃ t ∈ tasks, matchesTarget target t = true)
    ∧ ((∀ t ∈ tasks, matchesTarget target t = false) →
        remove_task tasks target = (tasks, false)) := by
  refine ⟨rfl, ?_, ?_, ?_⟩
  · exact List.filter_sublist tasks
  · show decide _ = true ↔ _
    rw [decide_eq_true_iff]
    rw [List.length_filter_lt_length_iff_exists]
    constructor
    · rintro ⟨t, ht, hp⟩
      exact ⟨t, ht, by simpa using hp⟩
    · rintro ⟨t, ht, hp⟩
      exact ⟨t, ht, by simp [hp]⟩
  · intro hall
    have hfe : tasks.filter (fun t => ! matchesTarget target t) = tasks := by
      rw [List.filter_eq_self]
      intro a ha
      simp [hall a ha]
    show (tasks.filter (fun t => ! matchesTarget target t), _) = (tasks, false)
    rw [hfe]
    simp

/-- C7 witness: removing with a timestamp that exists removes exactly the
matching task; removing with a pair absent from the list is a no-op with
no save. -/
theorem remove_excludes_all_matches_witness :
    remove_task [taskX1] taskX2 = ([taskX1], false) :=
  (remove_excludes_all_matches [taskX1] taskX2).2.2.2 (by decide)

theorem insortKey_perm (k : α → Nat) (a : α) (l : List α) :
    (insortKey k a l).Perm (a :: l) := by
  induction l with
  | nil => exact List.Perm.refl _
  | cons b bs ih =>
    unfold insortKey
    split
    · exact List.Perm.refl _
    · exact (ih.cons b).trans (List.Perm.swap a b bs)

theorem pySortKey_foldl_perm (k : α → Nat) :
    ∀ (l acc : List α),
      (List.foldl (fun acc a => insortKey k a acc) acc l).Perm (acc ++ l) := by
  intro l
  induction l with
  | nil => intro acc; simp
  | cons a l ih =>
    intro acc
    simp only [List.foldl_cons]
    exact (ih _).trans
      (((insortKey_perm k a acc).append_right l).trans List.perm_middle.symm)

theorem pySortKey_perm (k : α → Nat) (l : List α) : (pySortKey k l).Perm l := by
  simpa [pySortKey] using pySortKey_foldl_perm k l []

theorem insortKey_pairwise (k : α → Nat) (a : α) (l : List α)
    (h : l.Pairwise (fun x y => k x ≤ k y)) :
    (insortKey k a l).Pairwise (fun x y => k x ≤ k y) := by
  induction l with
  | nil => simp [insortKey]
  | cons b bs ih =>
    obtain ⟨hb, hbs⟩ := List.pairwise_cons.mp h
    unfold insortKey
    split
    · rename_i hlt
      refine List.Pairwise.cons ?_ h
      intro x hx
      rcases List.mem_cons.mp hx with rfl | hx
      · exact Nat.le_of_lt hlt
      · exact (Nat.le_of_lt hlt).trans (hb x hx)
    · rename_i hlt
      refine List.Pairwise.cons ?_ (ih hbs)
      intro x hx
      rcases List.mem_cons.mp ((insortKey_perm k a bs).mem_iff.mp hx) with rfl | hx
      · exact Nat.le_of_not_lt hlt
      · exact hb x hx

theorem pySortKey_foldl_pairwise (k : α → Nat) :
    ∀ (l acc : List α), acc.Pairwise (fun x y => k x ≤ k y) →
      (List.foldl (fun acc a => insortKey k a acc) acc l).Pairwise
        (fun x y => k x ≤ k y) := by
  intro l
  induction l with
  | nil => intro acc h; simpa using h
  | cons a l ih =>
    intro acc h
    simp only [List.foldl_cons]
    exact ih _ (insortKey_pairwise k a acc h)

theorem pySortKey_pairwise (k : α → Nat) (l : List α) :
    (pySortKey k l).Pairwise (fun x y => k x ≤ k y) :=
  pySortKey_foldl_pairwise k l [] List.Pairwise.nil


theorem firstKeyErr_none (l : List JObj)
    (h : ∀ t ∈ l, ∃ dt, timeKeyE t = Except.ok dt) : firstKeyErr l = none := by
  induction l with
  | nil => rfl
  | cons t rest ih =>
    obtain ⟨dt, hdt⟩ := h t (List.mem_cons_self t rest)
    simp only [firstKeyErr]
    rw [hdt]
    exact ih (fun x hx => h x (List.mem_cons_of_mem t hx))

theorem pyLt_bool (x y : Bool) :
    pyLt (.bool x) (.bool y) = some (!x && y) := by
  cases x <;> cases y <;> rfl

theorem isNotDone_iff (t : JObj) :
    isNotDone t = true ↔ doneVal t = JVal.bool false := by
  unfold isNotDone
  cases h : doneVal t with
  | bool b => cases b <;> simp
  | null => simp
  | num n => simp
  | str s => simp
  | arr l => simp
  | obj o => simp

theorem isNotDone_false_iff (t : JObj) (h : ∃ b, doneVal t = JVal.bool b) :
    isNotDone t = false ↔ doneVal t = JVal.bool true := by
  obtain ⟨b, hb⟩ := h
  cases b
  · constructor
    · intro hf
      have ht := (isNotDone_iff t).mpr hb
      rw [ht] at hf
      cases hf
    · intro ht
      rw [hb] at ht
      simp at ht
  · constructor
    · intro _
      exact hb
    · intro _
      unfold isNotDone
      rw [hb]

theorem insortDone_skip_all (a : JObj) :
    ∀ xs : List JObj, (∀ b ∈ xs, pyLt (doneVal a) (doneVal b) = some false) →
      insortDone a xs = some (xs ++ [a]) := by
  intro xs
  induction xs with
  | nil => intro _; rfl
  | cons b bs ih =>
    intro h
    simp only [insortDone]
    rw [h b (List.mem_cons_self b bs)]
    rw [ih (fun x hx => h x (List.mem_cons_of_mem b hx))]
    rfl

theorem insortDone_mid (a : JObj) :
    ∀ (xs : List JObj) (c : JObj) (ys : List JObj),
      (∀ b ∈ xs, pyLt (doneVal a) (doneVal b) = some false) →
      pyLt (doneVal a) (doneVal c) = some true →
      insortDone a (xs ++ c :: ys) = some (xs ++ a :: c :: ys) := by
  intro xs
  induction xs with
  | nil =>
    intro c ys _ hc
    simp only [List.nil_append, insortDone]
    rw [hc]
  | cons x xs' ih =>
    intro c ys h hc
    simp only [List.cons_append, insortDone, List.append_eq]
    rw [h x (List.mem_cons_self x xs')]
    rw [ih c ys (fun b hb => h b (List.mem_cons_of_mem x hb)) hc]

theorem pySortDone_foldl_partition :
    ∀ (l A0 A1 : List JObj), (∀ x ∈ A0, doneVal x = JVal.bool false) →
      (∀ x ∈ A1, doneVal x = JVal.bool true) →
      (∀ x ∈ l, ∃ b, doneVal x = JVal.bool b) →
      List.foldl (fun acc t => acc.bind (insortDone t)) (some (A0 ++ A1)) l
        = some ((A0 ++ l.filter isNotDone)
            ++ (A1 ++ l.filter (fun t => ! isNotDone t))) := by
  intro l
  induction l with
  | nil => intro A0 A1 _ _ _; simp
  | cons a l ih =>
    intro A0 A1 h0 h1 hb
    obtain ⟨b, hab⟩ := hb a (List.mem_cons_self a l)
    simp only [List.foldl_cons]
    rw [show (some (A0 ++ A1)).bind (insortDone a) = insortDone a (A0 ++ A1)
      from rfl]
    cases b with
    | false =>
      have hins : insortDone a (A0 ++ A1) = some (A0 ++ a :: A1) := by
        cases A1 with
        | nil =>
          rw [List.append_nil]
          exact insortDone_skip_all a A0
            (fun x hx => by rw [hab, h0 x hx, pyLt_bool]; rfl)
        | cons c A1' =>
          exact insortDone_mid a A0 c A1'
            (fun x hx => by rw [hab, h0 x hx, pyLt_bool]; rfl)
            (by rw [hab, h1 c (List.mem_cons_self c A1'), pyLt_bool]; rfl)
      rw [hins, show A0 ++ a :: A1 = (A0 ++ [a]) ++ A1 by simp]
      rw [ih (A0 ++ [a]) A1
        (by
          intro x hx
          rcases List.mem_append.mp hx with hx | hx
          · exact h0 x hx
          · simp only [List.mem_singleton] at hx
            subst hx
            exact hab)
        h1 (fun x hx => hb x (List.mem_cons_of_mem a hx))]
      have hna : isNotDone a = true := (isNotDone_iff a).mpr hab
      simp [List.filter_cons, hna]
    | true =>
      have hins : insortDone a (A0 ++ A1) = some ((A0 ++ A1) ++ [a]) := by
        refine insortDone_skip_all a (A0 ++ A1) ?_
        intro x hx
        rcases List.mem_append.mp hx with hx | hx
        · rw [hab, h0 x hx, pyLt_bool]
          rfl
        · rw [hab, h1 x hx, pyLt_bool]
          rfl
      rw [hins, show (A0 ++ A1) ++ [a] = A0 ++ (A1 ++ [a]) by simp]
      rw [ih A0 (A1 ++ [a]) h0
        (by
          intro x hx
          rcases List.mem_append.mp hx with hx | hx
          · exact h1 x hx
          · simp only [List.mem_singleton] at hx
            subst hx
            exact hab)
        (fun x hx => hb x (List.mem_cons_of_mem a hx))]
      have hna : isNotDone a = false := by
        unfold isNotDone
        rw [hab]
      simp [List.filter_cons, hna]

theorem pySortDone_partition (l : List JObj)
    (h : ∀ x ∈ l, ∃ b, doneVal x = JVal.bool b) :
    pySortDone l
      = some (l.filter isNotDone ++ l.filter (fun t => ! isNotDone t)) := by
  have hp := pySortDone_foldl_partition l [] [] (by simp) (by simp) h
  simpa [pySortDone] using hp

/-- C8: on any list whose timestamps all parse (through the `get`
default, an absent timestamp reads as the epoch string) and whose
completion flags are booleans — the data model's type for `done`, and
the only values Python's `False`-before-`True` reading applies to — the
display order is the timestamp-sorted list stably partitioned into
incomplete-before-complete: the time sort is a permutation of the list,
sorted ascending by parsed timestamp; the completion pass keeps every
`done = False` task (in time order) before every `done = True` task (in
time order); the display list is a permutation of the input, no
completed task precedes an incomplete one, tasks with equal `done`
values stay in timestamp order, and on the specification's concrete
example A, B, C the display order is C, A, B.  The embedding is a pure
function, so the input list itself is untouched. -/
theorem refresh_orders_incomplete_first_by_time (tasks : List JObj)
    (hts : ∀ t ∈ tasks, ∃ dt, timeKeyE t = Except.ok dt)
    (hdone : ∀ t ∈ tasks, ∃ b, doneVal t = JVal.bool b) :
    refreshOrder tasks =
        some ((pySortKey timeKeyN tasks).filter isNotDone
          ++ (pySortKey timeKeyN tasks).filter (fun t => ! isNotDone t))
    ∧ (pySortKey timeKeyN tasks).Pairwise (fun a b => timeKeyN a ≤ timeKeyN b)
    ∧ (pySortKey timeKeyN tasks).Perm tasks
    ∧ ((pySortKey timeKeyN tasks).filter isNotDone
        ++ (pySortKey timeKeyN tasks).filter (fun t => ! isNotDone t)).Perm tasks
    ∧ ((pySortKey timeKeyN tasks).filter isNotDone
        ++ (pySortKey timeKeyN tasks).filter (fun t => ! isNotDone t)).Pairwise
        (fun a b => doneVal a = JVal.bool true → doneVal b = JVal.bool true)
    ∧ ((pySortKey timeKeyN tasks).filter isNotDone
        ++ (pySortKey timeKeyN tasks).filter (fun t => ! isNotDone t)).Pairwise
        (fun a b => doneVal a = doneVal b → timeKeyN a ≤ timeKeyN b)
    ∧ (∀ t : JObj, isNotDone t = true ↔ doneVal t = JVal.bool false)
    ∧ refreshOrder [taskA, taskB, taskC] = some [taskC, taskA, taskB] := by
  have hS : (pySortKey timeKeyN tasks).Pairwise
      (fun a b => timeKeyN a ≤ timeKeyN b) := pySortKey_pairwise timeKeyN tasks
  have hperm := pySortKey_perm timeKeyN tasks
  have hdoneS : ∀ t ∈ pySortKey timeKeyN tasks, ∃ b, doneVal t = JVal.bool b :=
    fun t ht => hdone t (hperm.mem_iff.mp ht)
  refine ⟨?_, hS, hperm, ?_, ?_, ?_, fun t => isNotDone_iff t, ?_⟩
  · simp only [refreshOrder]
    rw [firstKeyErr_none tasks hts]
    exact pySortDone_partition _ hdoneS
  · exact (List.filter_append_perm isNotDone _).trans hperm
  · rw [List.pairwise_append]
    refine ⟨?_, ?_, ?_⟩
    · refine List.pairwise_of_forall_mem_list ?_
      intro a ha b hb htrue
      have hfa : doneVal a = JVal.bool false :=
        (isNotDone_iff a).mp (List.mem_filter.mp ha).2
      rw [hfa] at htrue
      simp at htrue
    · refine List.pairwise_of_forall_mem_list ?_
      intro a ha b hb _
      have hnb : isNotDone b = false := by
        have := (List.mem_filter.mp hb).2
        simpa using this
      exact (isNotDone_false_iff b
        (hdoneS b (List.mem_of_mem_filter hb))).mp hnb
    · intro a ha b hb _
      have hnb : isNotDone b = false := by
        have := (List.mem_filter.mp hb).2
        simpa using this
      exact (isNotDone_false_iff b
        (hdoneS b (List.mem_of_mem_filter hb))).mp hnb
  · rw [List.pairwise_append]
    refine ⟨?_, ?_, ?_⟩
    · refine List.Pairwise.imp ?_ (List.Pairwise.sublist (List.filter_sublist _) hS)
      intro a b h _
      exact h
    · refine List.Pairwise.imp ?_ (List.Pairwise.sublist (List.filter_sublist _) hS)
      intro a b h _
      exact h
    · intro a ha b hb heq
      have hfa : doneVal a = JVal.bool false :=
        (isNotDone_iff a).mp (List.mem_filter.mp ha).2
      have hnb : isNotDone b = false := by
        have := (List.mem_filter.mp hb).2
        simpa using this
      have hfb : doneVal b ≠ JVal.bool false := by
        intro hb2
        rw [(isNotDone_iff b).mpr hb2] at hnb
        cases hnb
      exact absurd (hfa ▸ heq).symm hfb
  · rfl

/-- C8 witness: the display order evaluated on the specification's
concrete example list, whose timestamps all parse and whose completion
flags are booleans. -/
theorem refresh_orders_incomplete_first_by_time_witness :
    refreshOrder [taskA, taskB, taskC]
      = some ((pySortKey timeKeyN [taskA, taskB, taskC]).filter isNotDone
          ++ (pySortKey timeKeyN [taskA, taskB, taskC]).filter
            (fun t => ! isNotDone t))
    ∧ refreshOrder [taskA, taskB, taskC] = some [taskC, taskA, taskB] := by
  have h := refresh_orders_incomplete_first_by_time [taskA, taskB, taskC] ?_ ?_
  · exact ⟨h.1, h.2.2.2.2.2.2.2⟩
  · intro t ht
    rcases List.mem_cons.mp ht with rfl | ht
    · exact ⟨⟨2024, 1, 2, 0, 0, 0⟩, rfl⟩
    rcases List.mem_cons.mp ht with rfl | ht
    · exact ⟨⟨2024, 1, 1, 0, 0, 0⟩, rfl⟩
    rcases List.mem_cons.mp ht with rfl | ht
    · exact ⟨⟨2024, 1, 1, 0, 0, 0⟩, rfl⟩
    · cases ht
  · intro t ht
    rcases List.mem_cons.mp ht with rfl | ht
    · exact ⟨false, rfl⟩
    rcases List.mem_cons.mp ht with rfl | ht
    · exact ⟨true, rfl⟩
    rcases List.mem_cons.mp ht with rfl | ht
    · exact ⟨false, rfl⟩
    · cases ht

theorem timeKeyE_not_typeerror (t : JObj) (h : ∃ s, timeVal t = JVal.str s) :
    timeKeyE t ≠ Except.error true := by
  obtain ⟨s, hs⟩ := h
  unfold timeKeyE
  rw [hs]
  cases hp : strptimeYMDHMS s <;> simp [hp]

theorem firstKeyErr_cases (l : List JObj)
    (hstr : ∀ t ∈ l, ∃ s, timeVal t = JVal.str s) :
    firstKeyErr l = none ∨ firstKeyErr l = some false := by
  induction l with
  | nil => exact Or.inl rfl
  | cons t rest ih =>
    simp only [firstKeyErr]
    cases he : timeKeyE t with
    | ok dt => exact ih (fun x hx => hstr x (List.mem_cons_of_mem t hx))
    | error e =>
      cases e with
      | false => exact Or.inr rfl
      | true =>
        exact absurd he
          (timeKeyE_not_typeerror t (hstr t (List.mem_cons_self t rest)))

theorem firstKeyErr_some_false (l : List JObj)
    (hstr : ∀ t ∈ l, ∃ s, timeVal t = JVal.str s)
    (hex : ∃ t ∈ l, timeKeyE t = Except.error false) :
    firstKeyErr l = some false := by
  induction l with
  | nil => simp at hex
  | cons t rest ih =>
    simp only [firstKeyErr]
    cases he : timeKeyE t with
    | ok dt =>
      obtain ⟨x, hx, hxe⟩ := hex
      rcases List.mem_cons.mp hx with rfl | hx
      · rw [he] at hxe; cases hxe
      · exact ih (fun y hy => hstr y (List.mem_cons_of_mem t hy)) ⟨x, hx, hxe⟩
    | error e =>
      cases e with
      | false => rfl
      | true =>
        exact absurd he
          (timeKeyE_not_typeerror t (hstr t (List.mem_cons_self t rest)))

/-- C9 counterexample: a list holding a task with a parsable timestamp
followed by an equally-incomplete task whose timestamp is present but
unparsable.  The claim predicts the unparsable task sorts at its
epoch-fallback key — before the other task — but the code's
`except ValueError` abandons the timestamp sort entirely and falls back
to the completion-status sort, which keeps the input order, so the
rendered order violates the claimed two-key-with-epoch-fallback
scheme. -/
theorem refresh_no_epoch_fallback_counterexample :
    refreshOrder [taskP, taskQ] = some [taskP, taskQ]
    ∧ doneVal taskP = doneVal taskQ
    ∧ epochFallbackKey taskQ < epochFallbackKey taskP
    ∧ ¬ ([taskP, taskQ].Pairwise fun a b =>
          (doneVal a = JVal.bool false ∧ doneVal b = JVal.bool true)
          ∨ (doneVal a = doneVal b ∧ epochFallbackKey a ≤ epochFallbackKey b)) := by
  refine ⟨rfl, rfl, by decide, ?_⟩
  intro h
  have hrel := (List.pairwise_cons.mp h).1 taskQ (List.mem_cons_self taskQ [])
  rcases hrel with ⟨h1, h2⟩ | ⟨h1, h2⟩
  · have h3 : JVal.bool false = JVal.bool true := h2
    simp at h3
  · revert h2
    decide

/-- C9 (amended): in the display ordering, a task whose timestamp field
is absent reads as the epoch string for the sort key through the `get`
default, while a present-but-unparsable timestamp string raises a
`ValueError` inside the key computation, which makes the whole
timestamp sort fail and drops the ordering to the completion-status
sort alone (stable, so the input order survives within each completion
group).  When additionally every `done` value is boolean — the data
model's type — the fallback succeeds and the render does not fail; the
render can however crash with an uncaught `TypeError` when the
completion sort compares incomparable raw `done` values, as the
concrete mixed-`done` list shows. -/
theorem refresh_fallback_on_unparsable (tasks : List JObj)
    (hstr : ∀ t ∈ tasks, ∃ s, timeVal t = JVal.str s)
    (hdone : ∀ t ∈ tasks, ∃ b, doneVal t = JVal.bool b) :
    (refreshOrder tasks).isSome
    ∧ ((∃ t ∈ tasks, timeKeyE t = Except.error false) →
        refreshOrder tasks
          = some (tasks.filter isNotDone
              ++ tasks.filter (fun t => ! isNotDone t)))
    ∧ (∀ t : JObj, jlookup t "timestamp" = none → timeVal t = JVal.str epochStr)
    ∧ (∀ (t : JObj) (s : String), jlookup t "timestamp" = some (.str s) →
        strptimeYMDHMS s = none → timeKeyE t = Except.error false)
    ∧ refreshOrder [taskR, taskS] = none := by
  refine ⟨?_, ?_, ?_, ?_, rfl⟩
  · rcases firstKeyErr_cases tasks hstr with h | h
    · simp only [refreshOrder]
      rw [h]
      have hdoneS : ∀ t ∈ pySortKey timeKeyN tasks, ∃ b, doneVal t = JVal.bool b :=
        fun t ht => hdone t ((pySortKey_perm timeKeyN tasks).mem_iff.mp ht)
      rw [pySortDone_partition _ hdoneS]
      rfl
    · simp only [refreshOrder]
      rw [h, pySortDone_partition tasks hdone]
      rfl
  · intro hex
    have hf := firstKeyErr_some_false tasks hstr hex
    simp only [refreshOrder]
    rw [hf]
    exact pySortDone_partition tasks hdone
  · intro t ht
    unfold timeVal
    rw [ht]
    rfl
  · intro t s hts hp
    unfold timeKeyE timeVal
    rw [hts]
    simp only [Option.getD_some]
    rw [hp]

/-- C9 witness: the fallback evaluated on the counterexample's concrete
two-task list, whose timestamps are strings and whose completion flags
are booleans. -/
theorem refresh_fallback_on_unparsable_witness :
    (refreshOrder [taskP, taskQ]).isSome
    ∧ refreshOrder [taskP, taskQ]
        = some ([taskP, taskQ].filter isNotDone
            ++ [taskP, taskQ].filter (fun t => ! isNotDone t)) := by
  have h := refresh_fallback_on_unparsable [taskP, taskQ] ?_ ?_
  · exact ⟨h.1, h.2.1 ⟨taskQ, List.mem_cons_of_mem taskP
      (List.mem_cons_self taskQ []), rfl⟩⟩
  · intro t ht
    rcases List.mem_cons.mp ht with rfl | ht
    · exact ⟨"2024-01-01 00:00:00", rfl⟩
    rcases List.mem_cons.mp ht with rfl | ht
    · exact ⟨"bad-timestamp", rfl⟩
    · cases ht
  · intro t ht
    rcases List.mem_cons.mp ht with rfl | ht
    · exact ⟨false, rfl⟩
    rcases List.mem_cons.mp ht with rfl | ht
    · exact ⟨false, rfl⟩
    · cases ht
